import Mathlib

/-! Emotion analysis command-line tool: option handling and the driver loop.

A shallow embedding of `src/src/utilities.cpp` (`setup_options`) and
`src/src/main.cpp` (`main`).

* `setup_options` is embedded as a function of the outcome of the
  `boost::program_options` calls made inside its `try` block.
* `main` is embedded as a small-step machine.  The detector's callback thread
  and the main thread interleave at the granularity of one listener method
  call; an interleaving is a list of `Action`s.
* `PlottingImageListener`, `StatusListener` and `exit_codes.hpp` are not part
  of the available sources; the operations `main` calls on them are modelled
  from the specification and marked as such.
-/

namespace Emotions

/-! ## Data model -/

/-- The face identifier used as the key of the detector's result map. -/
abbrev FaceId := Int

/-- The per-face payload reported by the detector.  The program never looks
inside it; it is represented by an uninterpreted code. -/
structure Face where
  payload : Nat
  deriving DecidableEq

/-- The part of a processed frame that `main` reads: its timestamp, which is
only copied, never computed with. -/
structure Frame where
  timestamp : Nat
  deriving DecidableEq

/-- One delivery of the detector: the `std::pair<Frame, std::map<FaceId, Face>>`
that `getData` hands to `main` (line 113). -/
structure DetectionEvent where
  first : Frame
  second : List (FaceId × Face)
  deriving DecidableEq

/-- One entry of the result collection: the arguments of
`addResult(faces, frame.getTimestamp())` (line 117). -/
structure ResultRecord where
  timestamp : Nat
  faces : List (FaceId × Face)
  deriving DecidableEq

/-- The conversion performed by lines 114-117 of `main`: the frame's timestamp
and the face map are passed to `addResult` as they are. -/
def toRecord (dataPoint : DetectionEvent) : ResultRecord :=
  { timestamp := dataPoint.first.timestamp, faces := dataPoint.second }

/-! ## Exit codes and option handling (`utilities.cpp`) -/

/-- Modelled from the spec: `exit_codes.hpp` is missing.  The four enumerators
are the ones named in `utilities.cpp` and `main.cpp`; the spec lists them as
success, help-displayed-then-exit, malformed-arguments and
unknown-argument-parsing-failure.  Their numeric values are not known and are
taken as a parameter (`toInt`) wherever `main` casts a code to `int`. -/
inductive exit_codes
  | OK
  | HALT
  | ARGUMENT_ERROR
  | UNKNOWN_ARGUMENT_ERROR
  deriving DecidableEq

/-- The content of the `po::variables_map` after a successful `po::store`:
whether `help` occurs, and the value of each valued option that occurs.
`framerate` holds an `unsigned int`. -/
structure VariablesMap where
  help : Bool
  affdex : Option String
  framerate : Option Nat
  video : Option String
  deriving DecidableEq

/-- What the library calls of lines 61-62 do with the argument vector: raise a
`po::error` (or a subclass), raise anything else, or fill the map. -/
inductive ParseOutcome
  | poError (what : String)
  | otherException
  | parsed (args : VariablesMap)
  deriving DecidableEq

/-- The three variables `setup_options` receives by reference. -/
structure OptionVars where
  video : String
  framerate : Nat
  classifier_path : String
  deriving DecidableEq

/-- `po::notify(args)` (line 62): every option declared with
`po::value<T>(&var)` that occurs in the map is written to its variable; the
variable of an option that does not occur is not touched. -/
def notify (args : VariablesMap) (vars : OptionVars) : OptionVars :=
  { video := match args.video with
      | some v => v
      | none => vars.video
    framerate := match args.framerate with
      | some f => f
      | none => vars.framerate
    classifier_path := match args.affdex with
      | some p => p
      | none => vars.classifier_path }

/-- `setup_options` (utilities.cpp, lines 37-94): the returned exit code and the
referenced variables after the call.  An exception leaves the `try` block
before `po::notify` has run. -/
def setup_options (outcome : ParseOutcome) (vars : OptionVars) : exit_codes × OptionVars :=
  match outcome with
  | ParseOutcome.poError _ => (exit_codes.ARGUMENT_ERROR, vars)
  | ParseOutcome.otherException => (exit_codes.UNKNOWN_ARGUMENT_ERROR, vars)
  | ParseOutcome.parsed args =>
    let vars1 := notify args vars
    if args.help then (exit_codes.HALT, vars1)
    else if args.video.isNone then (exit_codes.ARGUMENT_ERROR, vars1)
    else (exit_codes.OK, vars1)

/-! ## The listeners and the detector -/

/-- Modelled from the spec: the buffer of `PlottingImageListener` is missing.
The specification describes two hand-off designs: the single slot it reports
for the program as written, and the FIFO queue it requires of a
reimplementation. -/
inductive BridgeDesign
  | singleSlot
  | fifo
  deriving DecidableEq

/-- Modelled from the spec: `PlottingImageListener`'s result callback is
missing.  `deliver(event)` stores the event for later retrieval; in the
single-slot design a delivery made before the previous event is drained
overwrites it, in the queue design the event is appended behind the pending
ones. -/
def deliver (design : BridgeDesign) (event : DetectionEvent)
    (buffer : List DetectionEvent) : List DetectionEvent :=
  match design with
  | BridgeDesign.singleSlot => [event]
  | BridgeDesign.fifo => buffer ++ [event]

/-- Modelled from the spec: `PlottingImageListener::getDataSize` is missing.
`pendingCount()` returns the number of buffered, undelivered events. -/
def getDataSize (buffer : List DetectionEvent) : Nat :=
  buffer.length

/-- Modelled from the spec: `PlottingImageListener::getData` is missing.
`drain()` removes and returns the oldest undelivered event and fails with
`EmptyBufferError`, without mutating the state, when nothing is pending. -/
def getData (buffer : List DetectionEvent) : Option (DetectionEvent × List DetectionEvent) :=
  match buffer with
  | [] => none
  | event :: rest => some (event, rest)

/-- Modelled from the spec: `PlottingImageListener::addResult` is missing.
The drained event is converted to a record and appended to the collection. -/
def addResult (results : List ResultRecord) (faces : List (FaceId × Face))
    (timestamp : Nat) : List ResultRecord :=
  results ++ [{ timestamp := timestamp, faces := faces }]

/-- Modelled from the spec: `PlottingImageListener::outputToFile` is missing.
The whole collection is written to the stream, once per call; the stream is
the list of the collections written so far. -/
@[simp]
def outputToFile (results : List ResultRecord) (stream : List (List ResultRecord)) :
    List (List ResultRecord) :=
  stream ++ [results]

/-- The detector as `main` sets it up in lines 91-108. -/
structure Detector where
  processFrameRate : Nat
  classifierPath : String
  started : Bool
  video : String
  deriving DecidableEq

/-! ## `main` as a small-step machine -/

/-- The statement of `main` the main thread executes next: the test of line
111 (`bodyCheck`), the `getData` call of line 113 (`fetch`), the `addResult`
call of line 117 on the drained data point (`append`), the `isRunning` read of
line 119 (`condRunning`), the `getDataSize` read of line 119, evaluated only
when `isRunning` returned false (`condSize`), the `outputToFile` call of line
121 (`serialize`); `returned` after a `return`, `crashed` after the
empty-buffer failure of `getData`. -/
inductive PC
  | bodyCheck
  | fetch
  | append (dataPoint : DetectionEvent)
  | condRunning
  | condSize
  | serialize
  | returned
  | crashed
  deriving DecidableEq

/-- The state of a run of `main`.  `iterations` counts the executions of the
`do` body begun so far; `cout` has one entry per call of `outputToFile`, the
collection that call was given. -/
structure MainState where
  pc : PC
  buffer : List DetectionEvent
  results : List ResultRecord
  running : Bool
  iterations : Nat
  detector : Option Detector
  cout : List (List ResultRecord)
  exit : Option Int
  deriving DecidableEq

/-- What can happen next in a run: the detector delivers a result, the
detector reports that processing has finished, or the main thread executes its
next statement. -/
inductive Action
  | deliver (event : DetectionEvent)
  | markFinished
  | consumer
  deriving DecidableEq

/-- Modelled from the spec: `StatusListener::isRunning` is missing.  The flag
is read as it stands (`RUNNING` initially, `FINISHED` after `markFinished`). -/
def isRunning (s : MainState) : Bool :=
  s.running

/-- One statement of the main thread, lines 109-122 of `main`. -/
def consumerStep (s : MainState) : MainState :=
  match s.pc with
  | PC.bodyCheck =>
    if getDataSize s.buffer > 0 then { s with pc := PC.fetch, iterations := s.iterations + 1 }
    else { s with pc := PC.condRunning, iterations := s.iterations + 1 }
  | PC.fetch =>
    match getData s.buffer with
    | some (dataPoint, rest) => { s with pc := PC.append dataPoint, buffer := rest }
    | none => { s with pc := PC.crashed }
  | PC.append dataPoint =>
    { s with pc := PC.condRunning,
             results := addResult s.results dataPoint.second dataPoint.first.timestamp }
  | PC.condRunning =>
    if isRunning s then { s with pc := PC.bodyCheck } else { s with pc := PC.condSize }
  | PC.condSize =>
    if getDataSize s.buffer > 0 then { s with pc := PC.bodyCheck } else { s with pc := PC.serialize }
  | PC.serialize =>
    { s with pc := PC.returned, cout := outputToFile s.results s.cout, exit := some 0 }
  | PC.returned => s
  | PC.crashed => s

/-- One step of a run.  Once `main` has returned or has been terminated by an
uncaught exception the process is gone and nothing changes any more. -/
def step (design : BridgeDesign) (s : MainState) (a : Action) : MainState :=
  match s.pc with
  | PC.returned => s
  | PC.crashed => s
  | _ =>
    match a with
    | Action.deliver event => { s with buffer := deliver design event s.buffer }
    | Action.markFinished => { s with running := false }
    | Action.consumer => consumerStep s

/-- The state reached from `s` along a schedule. -/
def run (design : BridgeDesign) (s : MainState) (schedule : List Action) : MainState :=
  schedule.foldl (step design) s

/-- The default classifier path of line 79. -/
def defaultClassifierPath (env : Option String) : String :=
  match env with
  | some path => path
  | none => "lib/affdex-sdk/data/"

/-- The variables of lines 78-80 before `setup_options` is called; `env` is the
value of the environment variable `AFFDEX_DATA`, if set. -/
def initialVars (env : Option String) : OptionVars :=
  { video := "", framerate := 30, classifier_path := defaultClassifierPath env }

/-- Lines 78-108 of `main`: either the early return of line 82, before any
listener or detector exists, or the state in which the driver loop is entered,
with the detector configured and started and both listeners fresh (nothing
buffered, nothing collected, status `RUNNING`). -/
def mainInit (toInt : exit_codes → Int) (env : Option String) (outcome : ParseOutcome) :
    MainState :=
  match setup_options outcome (initialVars env) with
  | (exit_codes.OK, vars) =>
    { pc := PC.bodyCheck, buffer := [], results := [], running := true, iterations := 0,
      detector := some { processFrameRate := vars.framerate,
                         classifierPath := vars.classifier_path,
                         started := true, video := vars.video },
      cout := [], exit := none }
  | (result, _) =>
    { pc := PC.returned, buffer := [], results := [], running := true, iterations := 0,
      detector := none, cout := [], exit := some (toInt result) }

/-- A run of `main` under a schedule of the two threads. -/
def main (toInt : exit_codes → Int) (env : Option String) (outcome : ParseOutcome)
    (design : BridgeDesign) (schedule : List Action) : MainState :=
  run design (mainInit toInt env outcome) schedule

/-! ## Schedules -/

/-- The events a schedule delivers, in delivery order. -/
def delivered : List Action → List DetectionEvent
  | [] => []
  | Action.deliver event :: rest => event :: delivered rest
  | _ :: rest => delivered rest

/-- A schedule the producer can generate when its status flag is `running`:
nothing is delivered after `markFinished`. -/
def wellFormed (running : Bool) : List Action → Bool
  | [] => true
  | Action.deliver _ :: rest => running && wellFormed running rest
  | Action.markFinished :: rest => wellFormed false rest
  | Action.consumer :: rest => wellFormed running rest

/-- The producer never delivers a new event before the previous one has been
drained: at every delivery of the schedule, started in `s`, the buffer is
empty. -/
def noOverrun (design : BridgeDesign) (s : MainState) : List Action → Bool
  | [] => true
  | Action.deliver event :: rest =>
    decide (s.buffer = []) && noOverrun design (step design s (Action.deliver event)) rest
  | a :: rest => noOverrun design (step design s a) rest

/-- The events held between the producer and the collection: the one drained
but not yet appended, then the buffered ones. -/
def pending (s : MainState) : List DetectionEvent :=
  match s.pc with
  | PC.append dataPoint => dataPoint :: s.buffer
  | _ => s.buffer

/-- The records of everything delivered and not lost so far. -/
def collected (s : MainState) : List ResultRecord :=
  s.results ++ (pending s).map toRecord

/-- The records handed to `addResult` by the calls of line 117 along a
schedule started in `s`, in call order.  This is a log of the calls the loop
makes; it does not read the collection. -/
def appended (design : BridgeDesign) (s : MainState) : List Action → List ResultRecord
  | [] => []
  | a :: rest =>
    (match a, s.pc with
      | Action.consumer, PC.append dataPoint =>
        [{ timestamp := dataPoint.first.timestamp, faces := dataPoint.second }]
      | _, _ => []) ++ appended design (step design s a) rest

/-! ## Invariants, the termination measure and concrete inputs -/

/-- The facts that hold in every state of a run of `main` that entered the
driver loop. -/
def Inv (s : MainState) : Prop :=
  s.pc ≠ PC.crashed ∧
  (s.pc = PC.fetch → s.buffer ≠ []) ∧
  (s.pc = PC.condSize ∨ s.pc = PC.serialize ∨ s.pc = PC.returned → s.running = false) ∧
  (s.pc = PC.returned → s.cout = [s.results] ∧ s.exit = some 0) ∧
  (s.pc ≠ PC.returned → s.cout = [] ∧ s.exit = none)

instance (s : MainState) : Decidable (Inv s) := by
  unfold Inv
  infer_instance

/-- After the loop has been left nothing is pending. -/
def ExitInv (s : MainState) : Prop :=
  s.pc = PC.serialize ∨ s.pc = PC.returned → s.buffer = []

instance (s : MainState) : Decidable (ExitInv s) := by
  unfold ExitInv
  infer_instance

/-- The number of statements the main thread still executes before it returns
once the producer has finished. -/
def remaining (s : MainState) : Nat :=
  match s.pc with
  | PC.bodyCheck => if s.buffer.length = 0 then 4 else 5 * s.buffer.length + 1
  | PC.fetch => 5 * s.buffer.length
  | PC.append _ => 5 * s.buffer.length + 4
  | PC.condRunning => 5 * s.buffer.length + 3
  | PC.condSize => 5 * s.buffer.length + 2
  | PC.serialize => 1
  | PC.returned => 0
  | PC.crashed => 0


/-- An arbitrary numbering of the exit codes, used where a concrete run of
`main` is evaluated. -/
def sampleCodes : exit_codes → Int
  | exit_codes.OK => 0
  | exit_codes.HALT => 1
  | exit_codes.ARGUMENT_ERROR => 2
  | exit_codes.UNKNOWN_ARGUMENT_ERROR => 3

/-- The parse of the argument vector `video.mp4`: no option, one video. -/
def acceptedArgs : ParseOutcome :=
  ParseOutcome.parsed { help := false, affdex := none, framerate := none, video := some "video.mp4" }

/-- A delivery at the given timestamp with the single face of identifier 1. -/
def sampleEvent (timestamp : Nat) : DetectionEvent :=
  { first := { timestamp := timestamp }, second := [(1, { payload := 7 })] }

/-- Two deliveries in a row before the main thread runs, then the end of
processing, then six statements of the main thread. -/
def burstSchedule : List Action :=
  [Action.deliver (sampleEvent 0), Action.deliver (sampleEvent 33), Action.markFinished] ++
    List.replicate 6 Action.consumer

/-- Deliveries at timestamps 0, 33 and 66, each drained by the main thread
before the next one arrives, then the end of processing. -/
def pacedSchedule : List Action :=
  [Action.deliver (sampleEvent 0)] ++ List.replicate 4 Action.consumer ++
    [Action.deliver (sampleEvent 33)] ++ List.replicate 4 Action.consumer ++
    [Action.deliver (sampleEvent 66), Action.markFinished] ++ List.replicate 6 Action.consumer

/-! ## Option handling -/

theorem step_detector (design : BridgeDesign) (s : MainState) (a : Action) :
    (step design s a).detector = s.detector := by
  unfold step
  cases hpc : s.pc <;> cases a <;> simp [consumerStep, hpc] <;> (repeat' split) <;> rfl

theorem run_detector (design : BridgeDesign) (schedule : List Action) (s : MainState) :
    (run design s schedule).detector = s.detector := by
  induction schedule generalizing s with
  | nil => rfl
  | cons a rest ih =>
    show (run design (step design s a) rest).detector = s.detector
    rw [ih, step_detector]

theorem step_returned (design : BridgeDesign) (s : MainState) (a : Action)
    (h : s.pc = PC.returned) : step design s a = s := by
  unfold step
  rw [h]

theorem run_returned (design : BridgeDesign) (schedule : List Action) (s : MainState)
    (h : s.pc = PC.returned) : run design s schedule = s := by
  induction schedule with
  | nil => rfl
  | cons a rest ih =>
    show run design (step design s a) rest = s
    rw [step_returned design s a h, ih]

theorem setup_options_ok (outcome : ParseOutcome) (vars : OptionVars)
    (h : (setup_options outcome vars).1 = exit_codes.OK) :
    ∃ args, outcome = ParseOutcome.parsed args ∧ args.help = false ∧ args.video.isSome = true ∧
      (setup_options outcome vars).2 = notify args vars := by
  cases outcome with
  | poError w => simp [setup_options] at h
  | otherException => simp [setup_options] at h
  | parsed args =>
    refine ⟨args, rfl, ?_⟩
    cases hh : args.help <;> cases hv : args.video <;> simp [setup_options, hh, hv] at h ⊢

theorem mainInit_ok (toInt : exit_codes → Int) (env : Option String) (outcome : ParseOutcome)
    (h : (setup_options outcome (initialVars env)).1 = exit_codes.OK) :
    mainInit toInt env outcome =
      { pc := PC.bodyCheck, buffer := [], results := [], running := true, iterations := 0,
        detector := some
          { processFrameRate := (setup_options outcome (initialVars env)).2.framerate,
            classifierPath := (setup_options outcome (initialVars env)).2.classifier_path,
            started := true,
            video := (setup_options outcome (initialVars env)).2.video },
        cout := [], exit := none } := by
  unfold mainInit
  generalize setup_options outcome (initialVars env) = r at h ⊢
  obtain ⟨c, v⟩ := r
  simp at h
  subst h
  rfl

theorem mainInit_not_ok (toInt : exit_codes → Int) (env : Option String) (outcome : ParseOutcome)
    (h : (setup_options outcome (initialVars env)).1 ≠ exit_codes.OK) :
    mainInit toInt env outcome =
      { pc := PC.returned, buffer := [], results := [], running := true, iterations := 0,
        detector := none, cout := [],
        exit := some (toInt (setup_options outcome (initialVars env)).1) } := by
  unfold mainInit
  generalize setup_options outcome (initialVars env) = r at h ⊢
  obtain ⟨c, v⟩ := r
  cases c <;> simp at h ⊢

/-- C7: `setup_options` returns `HALT` exactly when parsing succeeds and help
is present, `ARGUMENT_ERROR` exactly when the parser raised a
`program_options` error or neither help nor a video is given,
`UNKNOWN_ARGUMENT_ERROR` exactly when another exception was raised, and `OK`
exactly when parsing succeeds without help and with a video; `main` returns the
code as its exit status unless it is `OK`. -/
theorem setup_options_classification (toInt : exit_codes → Int) (env : Option String)
    (outcome : ParseOutcome) (vars : OptionVars) (design : BridgeDesign)
    (schedule : List Action) :
    ((setup_options outcome vars).1 = exit_codes.HALT ↔
        ∃ args, outcome = ParseOutcome.parsed args ∧ args.help = true) ∧
    ((setup_options outcome vars).1 = exit_codes.ARGUMENT_ERROR ↔
        (∃ what, outcome = ParseOutcome.poError what) ∨
        ∃ args, outcome = ParseOutcome.parsed args ∧ args.help = false ∧ args.video = none) ∧
    ((setup_options outcome vars).1 = exit_codes.UNKNOWN_ARGUMENT_ERROR ↔
        outcome = ParseOutcome.otherException) ∧
    ((setup_options outcome vars).1 = exit_codes.OK ↔
        ∃ args video, outcome = ParseOutcome.parsed args ∧ args.help = false ∧
          args.video = some video) ∧
    ((setup_options outcome (initialVars env)).1 = exit_codes.OK ∨
      (main toInt env outcome design schedule).exit =
        some (toInt (setup_options outcome (initialVars env)).1)) := by
  refine ⟨?_, ?_, ?_, ?_, ?_⟩
  · cases outcome with
    | poError w => simp [setup_options]
    | otherException => simp [setup_options]
    | parsed args =>
      cases hh : args.help <;> cases hv : args.video <;> simp [setup_options, hh, hv]
  · cases outcome with
    | poError w => simp [setup_options]
    | otherException => simp [setup_options]
    | parsed args =>
      cases hh : args.help <;> cases hv : args.video <;> simp [setup_options, hh, hv]
  · cases outcome with
    | poError w => simp [setup_options]
    | otherException => simp [setup_options]
    | parsed args =>
      cases hh : args.help <;> cases hv : args.video <;> simp [setup_options, hh, hv]
  · cases outcome with
    | poError w => simp [setup_options]
    | otherException => simp [setup_options]
    | parsed args =>
      cases hh : args.help <;> cases hv : args.video <;> simp [setup_options, hh, hv]
  · by_cases h : (setup_options outcome (initialVars env)).1 = exit_codes.OK
    · exact Or.inl h
    · right
      unfold main
      rw [mainInit_not_ok toInt env outcome h, run_returned _ _ _ rfl]

/-- C8 (as stated, refuted): the argument vector `-f 0 video.mp4` is accepted
with `OK` and `main` constructs the detector with framerate 0. -/
theorem framerate_zero_reaches_detector :
    (setup_options
        (ParseOutcome.parsed
          { help := false, affdex := none, framerate := some 0, video := some "video.mp4" })
        (initialVars none)).1 = exit_codes.OK ∧
    ((main sampleCodes none
        (ParseOutcome.parsed
          { help := false, affdex := none, framerate := some 0, video := some "video.mp4" })
        BridgeDesign.fifo []).detector.map Detector.processFrameRate) = some 0 := by
  decide

/-- C8 (amended): when `setup_options` returns `OK`, the framerate `main` passes
to the detector is the value supplied with the framerate option, or 30 when
the option is absent; it is strictly positive exactly when the supplied value
is not 0. -/
theorem detector_framerate (toInt : exit_codes → Int) (env : Option String)
    (args : VariablesMap) (design : BridgeDesign) (schedule : List Action)
    (hok : (setup_options (ParseOutcome.parsed args) (initialVars env)).1 = exit_codes.OK) :
    ∃ f, ((main toInt env (ParseOutcome.parsed args) design schedule).detector.map
        Detector.processFrameRate) = some f ∧
      f = args.framerate.getD 30 ∧
      (0 < f ↔ args.framerate ≠ some 0) := by
  obtain ⟨args1, hout, -, -, hvars⟩ := setup_options_ok _ (initialVars env) hok
  cases hout
  refine ⟨args.framerate.getD 30, ?_, rfl, ?_⟩
  · unfold main
    rw [run_detector, mainInit_ok toInt env _ hok, hvars]
    cases hf : args.framerate <;> simp [notify, hf, initialVars]
  · cases hf : args.framerate <;> simp
    omega

theorem detector_framerate_witness :
    (setup_options
        (ParseOutcome.parsed
          { help := false, affdex := none, framerate := some 25, video := some "video.mp4" })
        (initialVars none)).1 = exit_codes.OK ∧
    ∃ f, ((main sampleCodes none
          (ParseOutcome.parsed
            { help := false, affdex := none, framerate := some 25, video := some "video.mp4" })
          BridgeDesign.singleSlot [Action.markFinished, Action.consumer]).detector.map
        Detector.processFrameRate) = some f ∧
      f = (some 25 : Option Nat).getD 30 ∧
      (0 < f ↔ (some 25 : Option Nat) ≠ some 0) :=
  ⟨by decide, detector_framerate sampleCodes none
    { help := false, affdex := none, framerate := some 25, video := some "video.mp4" }
    BridgeDesign.singleSlot [Action.markFinished, Action.consumer] (by decide)⟩

/-- C9: for every accepted argument vector, an option that is not supplied
leaves its variable as it was and a supplied option overwrites it; in `main`
the framerate is 30 and the classifier path is the value of `AFFDEX_DATA` (or
`lib/affdex-sdk/data/` when unset) unless the option supplies another value. -/
theorem defaults_and_overrides (env : Option String) (args : VariablesMap)
    (vars : OptionVars)
    (hok : (setup_options (ParseOutcome.parsed args) vars).1 = exit_codes.OK) :
    (setup_options (ParseOutcome.parsed args) vars).2.framerate =
      (match args.framerate with
        | some f => f
        | none => vars.framerate) ∧
    (setup_options (ParseOutcome.parsed args) vars).2.classifier_path =
      (match args.affdex with
        | some p => p
        | none => vars.classifier_path) ∧
    (setup_options (ParseOutcome.parsed args) (initialVars env)).2.framerate =
      (match args.framerate with
        | some f => f
        | none => 30) ∧
    (setup_options (ParseOutcome.parsed args) (initialVars env)).2.classifier_path =
      (match args.affdex, env with
        | some p, _ => p
        | none, some e => e
        | none, none => "lib/affdex-sdk/data/") := by
  obtain ⟨args1, hout, hh, hv, hvars⟩ := setup_options_ok _ vars hok
  cases hout
  refine ⟨?_, ?_, ?_, ?_⟩
  · rw [hvars]; rfl
  · rw [hvars]; rfl
  · cases hv2 : args.video
    · simp [hv2] at hv
    · cases hf : args.framerate <;> simp [setup_options, hh, hv2, notify, hf, initialVars]
  · cases hv2 : args.video
    · simp [hv2] at hv
    · cases ha : args.affdex <;> cases env <;>
        simp [setup_options, hh, hv2, notify, ha, initialVars, defaultClassifierPath]

theorem defaults_and_overrides_witness :
    (setup_options
        (ParseOutcome.parsed
          { help := false, affdex := none, framerate := some 15, video := some "video.mp4" })
        (initialVars (some "/opt/affdex/data"))).1 = exit_codes.OK ∧
    (setup_options
        (ParseOutcome.parsed
          { help := false, affdex := none, framerate := some 15, video := some "video.mp4" })
        (initialVars (some "/opt/affdex/data"))).2.framerate = 15 ∧
    (setup_options
        (ParseOutcome.parsed
          { help := false, affdex := none, framerate := some 15, video := some "video.mp4" })
        (initialVars (some "/opt/affdex/data"))).2.classifier_path = "/opt/affdex/data" :=
  ⟨by decide,
    (defaults_and_overrides (some "/opt/affdex/data")
      { help := false, affdex := none, framerate := some 15, video := some "video.mp4" }
      (initialVars (some "/opt/affdex/data")) (by decide)).2.2.1,
    (defaults_and_overrides (some "/opt/affdex/data")
      { help := false, affdex := none, framerate := some 15, video := some "video.mp4" }
      (initialVars (some "/opt/affdex/data")) (by decide)).2.2.2⟩

/-! ## Invariants of the driver loop -/

theorem inv_step (design : BridgeDesign) (s : MainState) (a : Action) (h : Inv s) :
    Inv (step design s a) := by
  obtain ⟨pc, buffer, results, running, iters, det, cout, ex⟩ := s
  cases pc <;> cases a <;> cases design <;> cases buffer <;> cases running <;>
    simp_all [Inv, step, consumerStep, deliver, getData, getDataSize, isRunning]

theorem inv_run (design : BridgeDesign) (schedule : List Action) (s : MainState) (h : Inv s) :
    Inv (run design s schedule) := by
  induction schedule generalizing s with
  | nil => exact h
  | cons a rest ih => exact ih _ (inv_step design s a h)

theorem inv_mainInit (toInt : exit_codes → Int) (env : Option String) (outcome : ParseOutcome)
    (hok : (setup_options outcome (initialVars env)).1 = exit_codes.OK) :
    Inv (mainInit toInt env outcome) := by
  rw [mainInit_ok toInt env outcome hok]
  simp [Inv]

theorem collected_consumer (design : BridgeDesign) (s : MainState) :
    collected (step design s Action.consumer) = collected s := by
  obtain ⟨pc, buffer, results, running, iters, det, cout, ex⟩ := s
  cases pc <;> cases buffer <;> cases running <;>
    simp [collected, pending, step, consumerStep, getData, getDataSize, isRunning, addResult,
      toRecord]

theorem collected_markFinished (design : BridgeDesign) (s : MainState) :
    collected (step design s Action.markFinished) = collected s := by
  obtain ⟨pc, buffer, results, running, iters, det, cout, ex⟩ := s
  cases pc <;> simp [collected, pending, step]

theorem collected_deliver (design : BridgeDesign) (s : MainState) (event : DetectionEvent)
    (hrun : s.running = true) (hinv : Inv s)
    (hd : design = BridgeDesign.fifo ∨ s.buffer = []) :
    collected (step design s (Action.deliver event)) = collected s ++ [toRecord event] := by
  obtain ⟨pc, buffer, results, running, iters, det, cout, ex⟩ := s
  simp only at hrun hd
  subst hrun
  rcases hd with hd | hd
  · subst hd
    cases pc <;> simp_all [Inv, collected, pending, step, deliver]
  · subst hd
    cases design <;> cases pc <;> simp_all [Inv, collected, pending, step, deliver]

theorem exitInv_step (design : BridgeDesign) (s : MainState) (a : Action) (hinv : Inv s)
    (hex : ExitInv s) (hw : wellFormed s.running [a] = true) :
    ExitInv (step design s a) := by
  obtain ⟨pc, buffer, results, running, iters, det, cout, ex⟩ := s
  cases pc <;> cases a <;> cases design <;> cases buffer <;> cases running <;>
    simp_all [Inv, ExitInv, wellFormed, step, consumerStep, deliver, getData, getDataSize,
      isRunning]

theorem running_deliver (design : BridgeDesign) (s : MainState) (event : DetectionEvent) :
    (step design s (Action.deliver event)).running = s.running := by
  obtain ⟨pc, buffer, results, running, iters, det, cout, ex⟩ := s
  cases pc <;> simp [step]

theorem running_consumer (design : BridgeDesign) (s : MainState) :
    (step design s Action.consumer).running = s.running := by
  obtain ⟨pc, buffer, results, running, iters, det, cout, ex⟩ := s
  cases pc <;> cases buffer <;> cases running <;>
    simp [step, consumerStep, getData, getDataSize, isRunning]

theorem running_markFinished (design : BridgeDesign) (s : MainState) (hinv : Inv s) :
    (step design s Action.markFinished).running = false := by
  obtain ⟨pc, buffer, results, running, iters, det, cout, ex⟩ := s
  cases pc <;> simp_all [Inv, step]

theorem run_cons (design : BridgeDesign) (s : MainState) (a : Action) (rest : List Action) :
    run design s (a :: rest) = run design (step design s a) rest := rfl

theorem run_append (design : BridgeDesign) (s : MainState) (l1 l2 : List Action) :
    run design s (l1 ++ l2) = run design (run design s l1) l2 := by
  simp [run, List.foldl_append]

theorem run_collected (design : BridgeDesign) (schedule : List Action) (s : MainState)
    (hinv : Inv s) (hex : ExitInv s) (hw : wellFormed s.running schedule = true)
    (hd : design = BridgeDesign.fifo ∨ noOverrun design s schedule = true) :
    ExitInv (run design s schedule) ∧
    collected (run design s schedule) = collected s ++ (delivered schedule).map toRecord ∧
    ((run design s schedule).running = false ↔
      s.running = false ∨ Action.markFinished ∈ schedule) := by
  induction schedule generalizing s with
  | nil => simp [run, delivered, hex]
  | cons a rest ih =>
    have hinv1 := inv_step design s a hinv
    rw [run_cons]
    cases a with
    | deliver event =>
      simp only [wellFormed, Bool.and_eq_true] at hw
      have hex1 := exitInv_step design s (Action.deliver event) hinv hex
        (by simp [wellFormed, hw.1])
      have hd1 : design = BridgeDesign.fifo ∨
          noOverrun design (step design s (Action.deliver event)) rest = true := by
        rcases hd with hd | hd
        · exact Or.inl hd
        · simp only [noOverrun, Bool.and_eq_true] at hd
          exact Or.inr hd.2
      have hd0 : design = BridgeDesign.fifo ∨ s.buffer = [] := by
        rcases hd with hd | hd
        · exact Or.inl hd
        · simp only [noOverrun, Bool.and_eq_true, decide_eq_true_eq] at hd
          exact Or.inr hd.1
      have hr1 := running_deliver design s event
      obtain ⟨h1, h2, h3⟩ := ih _ hinv1 hex1 (by rw [hr1]; exact hw.2) hd1
      refine ⟨h1, ?_, ?_⟩
      · rw [h2, collected_deliver design s event hw.1 hinv hd0]
        simp [delivered]
      · rw [h3, hr1]
        simp
    | markFinished =>
      simp only [wellFormed] at hw
      have hr1 := running_markFinished design s hinv
      have hex1 := exitInv_step design s Action.markFinished hinv hex (by simp [wellFormed])
      have hd1 : design = BridgeDesign.fifo ∨
          noOverrun design (step design s Action.markFinished) rest = true := by
        rcases hd with hd | hd
        · exact Or.inl hd
        · simp only [noOverrun] at hd
          exact Or.inr hd
      obtain ⟨h1, h2, h3⟩ := ih _ hinv1 hex1 (by rw [hr1]; exact hw) hd1
      refine ⟨h1, ?_, ?_⟩
      · rw [h2, collected_markFinished]
        simp [delivered]
      · rw [h3, hr1]
        simp
    | consumer =>
      simp only [wellFormed] at hw
      have hr1 := running_consumer design s
      have hex1 := exitInv_step design s Action.consumer hinv hex (by simp [wellFormed])
      have hd1 : design = BridgeDesign.fifo ∨
          noOverrun design (step design s Action.consumer) rest = true := by
        rcases hd with hd | hd
        · exact Or.inl hd
        · simp only [noOverrun] at hd
          exact Or.inr hd
      obtain ⟨h1, h2, h3⟩ := ih _ hinv1 hex1 (by rw [hr1]; exact hw) hd1
      refine ⟨h1, ?_, ?_⟩
      · rw [h2, collected_consumer]
        simp [delivered]
      · rw [h3, hr1]
        simp

theorem remaining_step (design : BridgeDesign) (s : MainState) (hinv : Inv s)
    (hr : s.running = false) (hpc : s.pc ≠ PC.returned) :
    remaining (step design s Action.consumer) + 1 = remaining s := by
  obtain ⟨pc, buffer, results, running, iters, det, cout, ex⟩ := s
  simp only at hr
  subst hr
  cases pc <;> cases buffer <;>
    simp_all [Inv, remaining, step, consumerStep, getData, getDataSize, isRunning]
  omega

theorem remaining_zero (s : MainState) (hinv : Inv s) (h : remaining s = 0) :
    s.pc = PC.returned := by
  obtain ⟨pc, buffer, results, running, iters, det, cout, ex⟩ := s
  cases pc <;> cases buffer <;> simp_all [Inv, remaining]

theorem collected_returned (s : MainState) (hex : ExitInv s) (hpc : s.pc = PC.returned) :
    collected s = s.results := by
  have hb : s.buffer = [] := hex (Or.inr hpc)
  simp [collected, pending, hpc, hb]

theorem run_to_return (design : BridgeDesign) (n : Nat) (s : MainState) (hinv : Inv s)
    (hex : ExitInv s) (hr : s.running = false) (hn : remaining s = n) :
    (run design s (List.replicate n Action.consumer)).pc = PC.returned ∧
    (run design s (List.replicate n Action.consumer)).results = collected s ∧
    (run design s (List.replicate n Action.consumer)).cout = [collected s] ∧
    (run design s (List.replicate n Action.consumer)).exit = some 0 := by
  induction n generalizing s with
  | zero =>
    have hpc := remaining_zero s hinv hn
    have hc := collected_returned s hex hpc
    obtain ⟨-, -, -, h4, -⟩ := hinv
    obtain ⟨h5, h6⟩ := h4 hpc
    simp [run, hpc, hc, h5, h6]
  | succ n ih =>
    have hpc : s.pc ≠ PC.returned := by
      intro hpc
      simp [remaining, hpc] at hn
    have h1 := remaining_step design s hinv hr hpc
    have hinv1 := inv_step design s Action.consumer hinv
    have hex1 := exitInv_step design s Action.consumer hinv hex (by simp [wellFormed])
    have hr1 : (step design s Action.consumer).running = false := by
      rw [running_consumer, hr]
    have := ih _ hinv1 hex1 hr1 (by omega)
    rw [collected_consumer] at this
    simpa [List.replicate_succ, run_cons] using this

/-! ## Delivery and collection -/

theorem exitInv_mainInit (toInt : exit_codes → Int) (env : Option String)
    (outcome : ParseOutcome)
    (hok : (setup_options outcome (initialVars env)).1 = exit_codes.OK) :
    ExitInv (mainInit toInt env outcome) ∧ (mainInit toInt env outcome).running = true ∧
      collected (mainInit toInt env outcome) = [] := by
  rw [mainInit_ok toInt env outcome hok]
  simp [ExitInv, collected, pending]

theorem main_collects (toInt : exit_codes → Int) (env : Option String) (outcome : ParseOutcome)
    (design : BridgeDesign) (schedule : List Action)
    (hok : (setup_options outcome (initialVars env)).1 = exit_codes.OK)
    (hw : wellFormed true schedule = true)
    (hd : design = BridgeDesign.fifo ∨
      noOverrun design (mainInit toInt env outcome) schedule = true) :
    collected (main toInt env outcome design schedule) = (delivered schedule).map toRecord ∧
    ((main toInt env outcome design schedule).pc = PC.serialize ∨
        (main toInt env outcome design schedule).pc = PC.returned →
      (main toInt env outcome design schedule).results = (delivered schedule).map toRecord) ∧
    (Action.markFinished ∈ schedule →
      ∃ n,
        (main toInt env outcome design
            (schedule ++ List.replicate n Action.consumer)).pc = PC.returned ∧
        (main toInt env outcome design
            (schedule ++ List.replicate n Action.consumer)).results =
          (delivered schedule).map toRecord ∧
        (main toInt env outcome design
            (schedule ++ List.replicate n Action.consumer)).cout =
          [(delivered schedule).map toRecord] ∧
        (main toInt env outcome design
            (schedule ++ List.replicate n Action.consumer)).exit = some 0) := by
  unfold main
  have hinv := inv_mainInit toInt env outcome hok
  obtain ⟨hex, hrun, hcol⟩ := exitInv_mainInit toInt env outcome hok
  obtain ⟨h1, h2, h3⟩ := run_collected design schedule (mainInit toInt env outcome) hinv hex
    (by rw [hrun]; exact hw) hd
  have hinv1 := inv_run design schedule _ hinv
  rw [hcol, List.nil_append] at h2
  refine ⟨h2, ?_, ?_⟩
  · intro hpc
    have hb : (run design (mainInit toInt env outcome) schedule).buffer = [] := h1 hpc
    have : collected (run design (mainInit toInt env outcome) schedule) =
        (run design (mainInit toInt env outcome) schedule).results := by
      rcases hpc with hpc | hpc <;> simp [collected, pending, hpc, hb]
    rw [← this, h2]
  · intro hmem
    have hr : (run design (mainInit toInt env outcome) schedule).running = false :=
      h3.2 (Or.inr hmem)
    refine ⟨remaining (run design (mainInit toInt env outcome) schedule), ?_⟩
    have := run_to_return design _ _ hinv1 h1 hr rfl
    rw [run_append, ← h2]
    exact this

/-- C1 (as stated, refuted): with the single-slot hand-off, a run in which two
events are delivered before the main thread drains returns with one record,
the second event's; the first one is lost. -/
theorem single_slot_burst_loses_event :
    wellFormed true burstSchedule = true ∧
    delivered burstSchedule = [sampleEvent 0, sampleEvent 33] ∧
    (main sampleCodes none acceptedArgs BridgeDesign.singleSlot burstSchedule).pc = PC.returned ∧
    (main sampleCodes none acceptedArgs BridgeDesign.singleSlot burstSchedule).results =
      [toRecord (sampleEvent 33)] ∧
    (main sampleCodes none acceptedArgs BridgeDesign.singleSlot burstSchedule).cout =
      [[toRecord (sampleEvent 33)]] ∧
    (main sampleCodes none acceptedArgs BridgeDesign.singleSlot burstSchedule).results ≠
      (delivered burstSchedule).map toRecord := by
  decide

/-- C1 (amended): with the queue hand-off, for every schedule in which nothing
is delivered after the end of processing, every delivered event is either in
the collection or still pending, in delivery order; once the loop has been
left the collection is exactly the delivered sequence; and when the producer
has finished, finitely many further statements of the main thread make `main`
return 0 with that collection serialized. -/
theorem fifo_collects_every_delivery (toInt : exit_codes → Int) (env : Option String)
    (outcome : ParseOutcome) (schedule : List Action)
    (hok : (setup_options outcome (initialVars env)).1 = exit_codes.OK)
    (hw : wellFormed true schedule = true) :
    collected (main toInt env outcome BridgeDesign.fifo schedule) =
      (delivered schedule).map toRecord ∧
    ((main toInt env outcome BridgeDesign.fifo schedule).pc = PC.serialize ∨
        (main toInt env outcome BridgeDesign.fifo schedule).pc = PC.returned →
      (main toInt env outcome BridgeDesign.fifo schedule).results =
        (delivered schedule).map toRecord) ∧
    (Action.markFinished ∈ schedule →
      ∃ n,
        (main toInt env outcome BridgeDesign.fifo
            (schedule ++ List.replicate n Action.consumer)).pc = PC.returned ∧
        (main toInt env outcome BridgeDesign.fifo
            (schedule ++ List.replicate n Action.consumer)).results =
          (delivered schedule).map toRecord ∧
        (main toInt env outcome BridgeDesign.fifo
            (schedule ++ List.replicate n Action.consumer)).cout =
          [(delivered schedule).map toRecord] ∧
        (main toInt env outcome BridgeDesign.fifo
            (schedule ++ List.replicate n Action.consumer)).exit = some 0) :=
  main_collects toInt env outcome BridgeDesign.fifo schedule hok hw (Or.inl rfl)

theorem fifo_collects_every_delivery_witness :
    (setup_options acceptedArgs (initialVars none)).1 = exit_codes.OK ∧
    wellFormed true (burstSchedule ++ List.replicate 5 Action.consumer) = true ∧
    (main sampleCodes none acceptedArgs BridgeDesign.fifo
      (burstSchedule ++ List.replicate 5 Action.consumer)).pc = PC.returned ∧
    (main sampleCodes none acceptedArgs BridgeDesign.fifo
      (burstSchedule ++ List.replicate 5 Action.consumer)).results =
        (delivered (burstSchedule ++ List.replicate 5 Action.consumer)).map toRecord ∧
    (delivered (burstSchedule ++ List.replicate 5 Action.consumer)).map toRecord =
      [{ timestamp := 0, faces := [(1, { payload := 7 })] },
        { timestamp := 33, faces := [(1, { payload := 7 })] }] :=
  ⟨by decide, by decide, by decide,
    (fifo_collects_every_delivery sampleCodes none acceptedArgs
      (burstSchedule ++ List.replicate 5 Action.consumer) (by decide)
      (by decide)).2.1 (Or.inr (by decide)), by decide⟩

/-- C4: whenever no event is delivered while another one is still buffered,
whichever hand-off is used, the collection built by the driver loop is the
delivered sequence, one record per event in delivery order, each with the
event's timestamp and face map unchanged; and once the producer has finished
`main` returns with exactly that collection serialized. -/
theorem paced_producer_collects (toInt : exit_codes → Int) (env : Option String)
    (outcome : ParseOutcome) (design : BridgeDesign) (schedule : List Action)
    (hok : (setup_options outcome (initialVars env)).1 = exit_codes.OK)
    (hw : wellFormed true schedule = true)
    (hpaced : noOverrun design (mainInit toInt env outcome) schedule = true) :
    collected (main toInt env outcome design schedule) =
      (delivered schedule).map
        (fun event => { timestamp := event.first.timestamp, faces := event.second }) ∧
    ((main toInt env outcome design schedule).pc = PC.serialize ∨
        (main toInt env outcome design schedule).pc = PC.returned →
      (main toInt env outcome design schedule).results =
        (delivered schedule).map
          (fun event => { timestamp := event.first.timestamp, faces := event.second })) ∧
    (Action.markFinished ∈ schedule →
      ∃ n,
        (main toInt env outcome design
            (schedule ++ List.replicate n Action.consumer)).pc = PC.returned ∧
        (main toInt env outcome design
            (schedule ++ List.replicate n Action.consumer)).results =
          (delivered schedule).map
            (fun event => { timestamp := event.first.timestamp, faces := event.second }) ∧
        (main toInt env outcome design
            (schedule ++ List.replicate n Action.consumer)).cout =
          [(delivered schedule).map
            (fun event => { timestamp := event.first.timestamp, faces := event.second })] ∧
        (main toInt env outcome design
            (schedule ++ List.replicate n Action.consumer)).exit = some 0) :=
  main_collects toInt env outcome design schedule hok hw (Or.inr hpaced)

theorem paced_producer_collects_witness :
    (setup_options acceptedArgs (initialVars none)).1 = exit_codes.OK ∧
    wellFormed true pacedSchedule = true ∧
    noOverrun BridgeDesign.singleSlot (mainInit sampleCodes none acceptedArgs) pacedSchedule =
      true ∧
    (main sampleCodes none acceptedArgs BridgeDesign.singleSlot pacedSchedule).pc =
      PC.returned ∧
    (main sampleCodes none acceptedArgs BridgeDesign.singleSlot pacedSchedule).cout =
      [[{ timestamp := 0, faces := [(1, { payload := 7 })] },
        { timestamp := 33, faces := [(1, { payload := 7 })] },
        { timestamp := 66, faces := [(1, { payload := 7 })] }]] ∧
    (main sampleCodes none acceptedArgs BridgeDesign.singleSlot pacedSchedule).results =
      [{ timestamp := 0, faces := [(1, { payload := 7 })] },
        { timestamp := 33, faces := [(1, { payload := 7 })] },
        { timestamp := 66, faces := [(1, { payload := 7 })] }] :=
  ⟨by decide, by decide, by decide, by decide, by decide,
    (paced_producer_collects sampleCodes none acceptedArgs BridgeDesign.singleSlot pacedSchedule
      (by decide) (by decide) (by decide)).2.1 (Or.inr (by decide))⟩

/-! ## Loop exit, draining and serialization -/

theorem main_inv_or_early (toInt : exit_codes → Int) (env : Option String)
    (outcome : ParseOutcome) (design : BridgeDesign) (schedule : List Action) :
    ((setup_options outcome (initialVars env)).1 = exit_codes.OK ∧
      Inv (main toInt env outcome design schedule)) ∨
    ((setup_options outcome (initialVars env)).1 ≠ exit_codes.OK ∧
      main toInt env outcome design schedule =
        { pc := PC.returned, buffer := [], results := [], running := true, iterations := 0,
          detector := none, cout := [],
          exit := some (toInt (setup_options outcome (initialVars env)).1) }) := by
  by_cases hok : (setup_options outcome (initialVars env)).1 = exit_codes.OK
  · exact Or.inl ⟨hok, inv_run design schedule _ (inv_mainInit toInt env outcome hok)⟩
  · right
    refine ⟨hok, ?_⟩
    unfold main
    rw [mainInit_not_ok toInt env outcome hok, run_returned _ _ _ rfl]

theorem exit_step_iff (design : BridgeDesign) (s : MainState) :
    (step design s Action.consumer).pc = PC.serialize ↔
      s.pc = PC.condSize ∧ getDataSize s.buffer = 0 := by
  obtain ⟨pc, buffer, results, running, iters, det, cout, ex⟩ := s
  cases pc <;> cases buffer <;> cases running <;>
    simp [step, consumerStep, getData, getDataSize, isRunning]

theorem condSize_step_iff (design : BridgeDesign) (s : MainState) :
    (step design s Action.consumer).pc = PC.condSize ↔
      s.pc = PC.condRunning ∧ isRunning s = false := by
  obtain ⟨pc, buffer, results, running, iters, det, cout, ex⟩ := s
  cases pc <;> cases buffer <;> cases running <;>
    simp [step, consumerStep, getData, getDataSize, isRunning]

/-- C2: in every state of every run of `main`, the next statement of the main
thread leaves the driver loop exactly when it is the pending-count read of the
loop condition, the status listener reports not running and the pending count
is 0; that read is reached only from a status read that returned false; and
the loop is never left while the pending count is positive. -/
theorem loop_exit_condition (toInt : exit_codes → Int) (env : Option String)
    (outcome : ParseOutcome) (design : BridgeDesign) (schedule : List Action) :
    ((step design (main toInt env outcome design schedule) Action.consumer).pc = PC.serialize ↔
      (main toInt env outcome design schedule).pc = PC.condSize ∧
      isRunning (main toInt env outcome design schedule) = false ∧
      getDataSize (main toInt env outcome design schedule).buffer = 0) ∧
    ((step design (main toInt env outcome design schedule) Action.consumer).pc = PC.condSize ↔
      (main toInt env outcome design schedule).pc = PC.condRunning ∧
      isRunning (main toInt env outcome design schedule) = false) ∧
    ¬ (0 < getDataSize (main toInt env outcome design schedule).buffer ∧
      (step design (main toInt env outcome design schedule) Action.consumer).pc =
        PC.serialize) := by
  refine ⟨?_, condSize_step_iff design _, ?_⟩
  · rw [exit_step_iff]
    constructor
    · rintro ⟨h1, h2⟩
      refine ⟨h1, ?_, h2⟩
      rcases main_inv_or_early toInt env outcome design schedule with ⟨-, hinv⟩ | ⟨-, heq⟩
      · exact hinv.2.2.1 (Or.inl h1)
      · rw [heq] at h1
        simp at h1
    · rintro ⟨h1, -, h2⟩
      exact ⟨h1, h2⟩
  · rw [exit_step_iff]
    rintro ⟨h1, -, h2⟩
    omega

theorem iteration_drains (design : BridgeDesign) (s : MainState) (event : DetectionEvent)
    (rest : List DetectionEvent) (hpc : s.pc = PC.bodyCheck) (hr : s.running = false)
    (hb : s.buffer = event :: rest) :
    run design s (List.replicate 5 Action.consumer) =
      { s with pc := if rest = [] then PC.serialize else PC.bodyCheck,
               buffer := rest,
               results := s.results ++ [toRecord event],
               iterations := s.iterations + 1 } := by
  obtain ⟨pc, buffer, results, running, iters, det, cout, ex⟩ := s
  simp only at hpc hr hb
  subst hpc hr hb
  cases rest <;>
    simp [run, step, consumerStep, getData, getDataSize, isRunning, addResult, toRecord,
      List.replicate]

theorem drain_split (design : BridgeDesign) (drained : List DetectionEvent) :
    ∀ (rest : List DetectionEvent) (s : MainState), s.pc = PC.condRunning →
      s.running = false → s.buffer = drained ++ rest →
      run design s (List.replicate (2 + 5 * drained.length) Action.consumer) =
        { s with pc := if rest = [] then PC.serialize else PC.bodyCheck,
                 buffer := rest,
                 results := s.results ++ drained.map toRecord,
                 iterations := s.iterations + drained.length } := by
  induction drained using List.reverseRecOn with
  | nil =>
    intro rest s hpc hr hb
    obtain ⟨pc, buffer, results, running, iters, det, cout, ex⟩ := s
    simp only [List.nil_append] at hpc hr hb
    subst hpc hr hb
    cases buffer <;>
      simp [run, step, consumerStep, getData, getDataSize, isRunning, List.replicate]
  | append_singleton front event ih =>
    intro rest s hpc hr hb
    have h1 := ih (event :: rest) s hpc hr (by simp [hb])
    have hlen : 2 + 5 * (front ++ [event]).length = (2 + 5 * front.length) + 5 := by
      simp
      omega
    have h2 := iteration_drains design
      { s with pc := PC.bodyCheck, buffer := event :: rest,
               results := s.results ++ front.map toRecord,
               iterations := s.iterations + front.length } event rest rfl hr rfl
    have hif : (if event :: rest = [] then PC.serialize else PC.bodyCheck) = PC.bodyCheck := by
      simp
    rw [hlen, List.replicate_add, run_append, h1, hif, h2]
    simp [Nat.add_assoc]

/-- C3: from a loop-condition check at which the producer has finished and `k`
events are pending, the main thread alone leaves the loop after exactly `k`
further iterations, every one of which drains exactly one event: after the
check and `j ≤ k` iterations the first `j` pending events have been moved to
the collection in order, and the loop has been left exactly when `j = k`
(for `k = 0`, right at the check). -/
theorem loop_drains_after_finish (design : BridgeDesign) (s : MainState) (j : Nat)
    (hpc : s.pc = PC.condRunning) (hr : isRunning s = false)
    (hj : j ≤ getDataSize s.buffer) :
    run design s (List.replicate (2 + 5 * j) Action.consumer) =
      { s with pc := if j = getDataSize s.buffer then PC.serialize else PC.bodyCheck,
               buffer := s.buffer.drop j,
               results := s.results ++ (s.buffer.take j).map toRecord,
               iterations := s.iterations + j } := by
  have h := drain_split design (s.buffer.take j) (s.buffer.drop j) s hpc hr
    (List.take_append_drop j s.buffer).symm
  have hlen : (s.buffer.take j).length = j := by
    rw [List.length_take]
    exact Nat.min_eq_left hj
  rw [hlen] at h
  rw [h]
  have hiff : (List.drop j s.buffer = []) ↔ j = getDataSize s.buffer := by
    rw [List.drop_eq_nil_iff]
    unfold getDataSize at hj ⊢
    omega
  by_cases hjk : j = getDataSize s.buffer
  · rw [if_pos hjk, if_pos (hiff.mpr hjk)]
  · rw [if_neg hjk, if_neg (fun hd => hjk (hiff.mp hd))]

theorem loop_drains_after_finish_witness :
    (run BridgeDesign.fifo (mainInit sampleCodes none acceptedArgs)
        ([Action.deliver (sampleEvent 0), Action.deliver (sampleEvent 33), Action.markFinished] ++
          List.replicate 3 Action.consumer)).pc = PC.condRunning ∧
    isRunning (run BridgeDesign.fifo (mainInit sampleCodes none acceptedArgs)
        ([Action.deliver (sampleEvent 0), Action.deliver (sampleEvent 33), Action.markFinished] ++
          List.replicate 3 Action.consumer)) = false ∧
    1 ≤ getDataSize (run BridgeDesign.fifo (mainInit sampleCodes none acceptedArgs)
        ([Action.deliver (sampleEvent 0), Action.deliver (sampleEvent 33), Action.markFinished] ++
          List.replicate 3 Action.consumer)).buffer ∧
    (run BridgeDesign.fifo
        (run BridgeDesign.fifo (mainInit sampleCodes none acceptedArgs)
          ([Action.deliver (sampleEvent 0), Action.deliver (sampleEvent 33),
            Action.markFinished] ++ List.replicate 3 Action.consumer))
        (List.replicate (2 + 5 * 1) Action.consumer)).pc = PC.serialize ∧
    (run BridgeDesign.fifo
        (run BridgeDesign.fifo (mainInit sampleCodes none acceptedArgs)
          ([Action.deliver (sampleEvent 0), Action.deliver (sampleEvent 33),
            Action.markFinished] ++ List.replicate 3 Action.consumer))
        (List.replicate (2 + 5 * 1) Action.consumer)).results =
      [toRecord (sampleEvent 0), toRecord (sampleEvent 33)] :=
  ⟨by decide, by decide, by decide,
    by rw [loop_drains_after_finish BridgeDesign.fifo _ 1 (by decide) (by decide) (by decide)]
       decide,
    by rw [loop_drains_after_finish BridgeDesign.fifo _ 1 (by decide) (by decide) (by decide)]
       decide⟩

theorem run_running_false (design : BridgeDesign) (schedule : List Action) (s : MainState)
    (hinv : Inv s) (h : s.running = false ∨ Action.markFinished ∈ schedule) :
    (run design s schedule).running = false := by
  induction schedule generalizing s with
  | nil => simpa [run] using h
  | cons a rest ih =>
    rw [run_cons]
    apply ih _ (inv_step design s a hinv)
    cases a with
    | deliver event =>
      rw [running_deliver]
      simpa using h
    | markFinished => exact Or.inl (running_markFinished design s hinv)
    | consumer =>
      rw [running_consumer]
      simpa using h

theorem run_returns (design : BridgeDesign) (n : Nat) (s : MainState) (hinv : Inv s)
    (hr : s.running = false) (hn : remaining s = n) :
    (run design s (List.replicate n Action.consumer)).pc = PC.returned := by
  induction n generalizing s with
  | zero => simpa [run] using remaining_zero s hinv hn
  | succ n ih =>
    have hpc : s.pc ≠ PC.returned := by
      intro hpc
      simp [remaining, hpc] at hn
    have h1 := remaining_step design s hinv hr hpc
    have hr1 : (step design s Action.consumer).running = false := by
      rw [running_consumer, hr]
    have := ih _ (inv_step design s Action.consumer hinv) hr1 (by omega)
    simpa [List.replicate_succ, run_cons] using this

theorem cout_step_iff (design : BridgeDesign) (s : MainState) (a : Action) :
    (step design s a).cout ≠ s.cout ↔ a = Action.consumer ∧ s.pc = PC.serialize := by
  obtain ⟨pc, buffer, results, running, iters, det, cout, ex⟩ := s
  cases pc <;> cases a <;> cases buffer <;> cases running <;>
    simp [step, consumerStep, getData, getDataSize, isRunning]

theorem buffer_consumer_iff (design : BridgeDesign) (s : MainState) (hinv : Inv s) :
    (step design s Action.consumer).buffer ≠ s.buffer ↔ s.pc = PC.fetch := by
  obtain ⟨pc, buffer, results, running, iters, det, cout, ex⟩ := s
  cases pc <;> cases buffer <;> cases running <;>
    simp_all [Inv, step, consumerStep, getData, getDataSize, isRunning]

theorem fetch_step_iff (design : BridgeDesign) (s : MainState) :
    (step design s Action.consumer).pc = PC.fetch ↔
      s.pc = PC.bodyCheck ∧ 0 < getDataSize s.buffer := by
  obtain ⟨pc, buffer, results, running, iters, det, cout, ex⟩ := s
  cases pc <;> cases buffer <;> cases running <;>
    simp [step, consumerStep, getData, getDataSize, isRunning]

/-- C5: when `setup_options` returns `OK`, the producer finishes before the
driver loop starts and delivers nothing, the body runs once and goes straight
to the loop condition, both reads of the condition fail, the loop is left, and
`main` returns 0 after serializing a collection of zero records. -/
theorem empty_run (toInt : exit_codes → Int) (env : Option String) (outcome : ParseOutcome)
    (design : BridgeDesign) (n : Nat)
    (hok : (setup_options outcome (initialVars env)).1 = exit_codes.OK) :
    (main toInt env outcome design [Action.markFinished, Action.consumer]).pc =
      PC.condRunning ∧
    (main toInt env outcome design
      [Action.markFinished, Action.consumer, Action.consumer]).pc = PC.condSize ∧
    (main toInt env outcome design
      [Action.markFinished, Action.consumer, Action.consumer, Action.consumer]).pc =
        PC.serialize ∧
    main toInt env outcome design
        (Action.markFinished :: List.replicate (4 + n) Action.consumer) =
      { pc := PC.returned, buffer := [], results := [], running := false, iterations := 1,
        detector := (mainInit toInt env outcome).detector, cout := [[]], exit := some 0 } := by
  unfold main
  rw [mainInit_ok toInt env outcome hok]
  refine ⟨?_, ?_, ?_, ?_⟩
  · simp [run, step, consumerStep, getDataSize, isRunning]
  · simp [run, step, consumerStep, getDataSize, isRunning]
  · simp [run, step, consumerStep, getDataSize, isRunning]
  · rw [List.replicate_add, ← List.cons_append, run_append]
    rw [run_returned]
    · simp [run, step, consumerStep, getDataSize, isRunning, List.replicate]
    · simp [run, step, consumerStep, getDataSize, isRunning, List.replicate]

theorem empty_run_witness :
    (setup_options acceptedArgs (initialVars none)).1 = exit_codes.OK ∧
    (main sampleCodes none acceptedArgs BridgeDesign.singleSlot
        (Action.markFinished :: List.replicate (4 + 0) Action.consumer)).results = [] ∧
    (main sampleCodes none acceptedArgs BridgeDesign.singleSlot
        (Action.markFinished :: List.replicate (4 + 0) Action.consumer)).cout = [[]] ∧
    (main sampleCodes none acceptedArgs BridgeDesign.singleSlot
        (Action.markFinished :: List.replicate (4 + 0) Action.consumer)).exit = some 0 :=
  ⟨by decide,
    by rw [(empty_run sampleCodes none acceptedArgs BridgeDesign.singleSlot 0 (by decide)).2.2.2],
    by rw [(empty_run sampleCodes none acceptedArgs BridgeDesign.singleSlot 0 (by decide)).2.2.2],
    by rw [(empty_run sampleCodes none acceptedArgs BridgeDesign.singleSlot 0 (by decide)).2.2.2]⟩

theorem results_step (design : BridgeDesign) (s : MainState) (a : Action) :
    (step design s a).results =
      s.results ++
        (match a, s.pc with
          | Action.consumer, PC.append dataPoint =>
            [{ timestamp := dataPoint.first.timestamp, faces := dataPoint.second }]
          | _, _ => []) := by
  obtain ⟨pc, buffer, results, running, iters, det, cout, ex⟩ := s
  cases pc <;> cases a <;> cases buffer <;> cases running <;>
    simp [step, consumerStep, getData, getDataSize, isRunning, addResult]

theorem run_results (design : BridgeDesign) (schedule : List Action) (s : MainState) :
    (run design s schedule).results = s.results ++ appended design s schedule := by
  induction schedule generalizing s with
  | nil => simp [run, appended]
  | cons a rest ih =>
    rw [run_cons, ih, results_step]
    simp [appended]

theorem mainInit_results (toInt : exit_codes → Int) (env : Option String)
    (outcome : ParseOutcome) : (mainInit toInt env outcome).results = [] := by
  by_cases hok : (setup_options outcome (initialVars env)).1 = exit_codes.OK
  · rw [mainInit_ok toInt env outcome hok]
  · rw [mainInit_not_ok toInt env outcome hok]

theorem main_results (toInt : exit_codes → Int) (env : Option String)
    (outcome : ParseOutcome) (design : BridgeDesign) (schedule : List Action) :
    (main toInt env outcome design schedule).results =
      appended design (mainInit toInt env outcome) schedule := by
  unfold main
  rw [run_results, mainInit_results, List.nil_append]

theorem serialize_step (design : BridgeDesign) (s : MainState) (hpc : s.pc = PC.serialize)
    (hc : s.cout = []) :
    step design s Action.consumer =
      { s with pc := PC.returned, cout := [s.results], exit := some 0 } := by
  obtain ⟨pc, buffer, results, running, iters, det, cout, ex⟩ := s
  simp only at hpc hc
  subst hpc hc
  simp [step, consumerStep]

/-- C6: in every state of every run of `main`: if `setup_options` did not
return `OK`, nothing has been serialized and no detector exists; otherwise the
detector has been started, nothing has been serialized before `main` returns,
and when it has returned the output holds exactly one serialization, whose
content is the sequence of all records handed to `addResult` during the loop,
in call order.  The collection is at every moment exactly that sequence, it
only grows along a run, and only the `addResult` call of line 117 changes it;
the output changes only at the statement that follows the loop, which writes
the collection whole and leaves it as it is; and once the producer has
finished, finitely many statements of the main thread make `main` return with
everything appended so far, and whatever is appended later, written. -/
theorem serialized_once_after_loop (toInt : exit_codes → Int) (env : Option String)
    (outcome : ParseOutcome) (design : BridgeDesign) (schedule : List Action) :
    (((setup_options outcome (initialVars env)).1 ≠ exit_codes.OK ∧
        (main toInt env outcome design schedule).cout = [] ∧
        (main toInt env outcome design schedule).detector = none) ∨
      ((setup_options outcome (initialVars env)).1 = exit_codes.OK ∧
        (main toInt env outcome design schedule).detector.map Detector.started = some true ∧
        (((main toInt env outcome design schedule).pc = PC.returned ∧
            (main toInt env outcome design schedule).cout =
              [(main toInt env outcome design schedule).results] ∧
            (main toInt env outcome design schedule).cout =
              [appended design (mainInit toInt env outcome) schedule] ∧
            (main toInt env outcome design schedule).exit = some 0) ∨
          ((main toInt env outcome design schedule).pc ≠ PC.returned ∧
            (main toInt env outcome design schedule).cout = [] ∧
            (main toInt env outcome design schedule).exit = none)) ∧
        ∃ n,
          (main toInt env outcome design
            (schedule ++ Action.markFinished :: List.replicate n Action.consumer)).pc =
              PC.returned ∧
          (main toInt env outcome design
            (schedule ++ Action.markFinished :: List.replicate n Action.consumer)).cout =
              [appended design (mainInit toInt env outcome) schedule ++
                appended design (main toInt env outcome design schedule)
                  (Action.markFinished :: List.replicate n Action.consumer)])) ∧
    (∀ a : Action,
      (step design (main toInt env outcome design schedule) a).cout ≠
          (main toInt env outcome design schedule).cout ↔
        a = Action.consumer ∧ (main toInt env outcome design schedule).pc = PC.serialize) ∧
    (main toInt env outcome design schedule).results =
      appended design (mainInit toInt env outcome) schedule ∧
    (∀ more : List Action,
      (main toInt env outcome design (schedule ++ more)).results =
        (main toInt env outcome design schedule).results ++
          appended design (main toInt env outcome design schedule) more) ∧
    (∀ a : Action,
      (step design (main toInt env outcome design schedule) a).results =
        (main toInt env outcome design schedule).results ++
          (match a, (main toInt env outcome design schedule).pc with
            | Action.consumer, PC.append dataPoint =>
              [{ timestamp := dataPoint.first.timestamp, faces := dataPoint.second }]
            | _, _ => [])) ∧
    ((main toInt env outcome design schedule).pc ≠ PC.serialize ∨
      step design (main toInt env outcome design schedule) Action.consumer =
        { main toInt env outcome design schedule with
          pc := PC.returned,
          cout := [(main toInt env outcome design schedule).results],
          exit := some 0 }) := by
  have hres := main_results toInt env outcome design schedule
  refine ⟨?_, fun a => cout_step_iff design _ a, hres, ?_, fun a => results_step design _ a, ?_⟩
  · rcases main_inv_or_early toInt env outcome design schedule with ⟨hok, hinv⟩ | ⟨hok, heq⟩
    · right
      refine ⟨hok, ?_, ?_, ?_⟩
      · unfold main
        rw [run_detector, mainInit_ok toInt env outcome hok]
        rfl
      · by_cases hpc : (main toInt env outcome design schedule).pc = PC.returned
        · refine Or.inl ⟨hpc, (hinv.2.2.2.1 hpc).1, ?_, (hinv.2.2.2.1 hpc).2⟩
          rw [← hres]
          exact (hinv.2.2.2.1 hpc).1
        · exact Or.inr ⟨hpc, hinv.2.2.2.2 hpc⟩
      · refine ⟨remaining (step design (main toInt env outcome design schedule)
          Action.markFinished), ?_⟩
        have h1 := inv_step design _ Action.markFinished hinv
        have h2 := running_markFinished design _ hinv
        have hret := run_returns design _ _ h1 h2 rfl
        have hinv2 := inv_run design
          (Action.markFinished ::
            List.replicate (remaining (step design (main toInt env outcome design schedule)
              Action.markFinished)) Action.consumer) _ hinv
        have hrun : main toInt env outcome design
            (schedule ++ Action.markFinished ::
              List.replicate (remaining (step design (main toInt env outcome design schedule)
                Action.markFinished)) Action.consumer) =
            run design (main toInt env outcome design schedule)
              (Action.markFinished ::
                List.replicate (remaining (step design (main toInt env outcome design schedule)
                  Action.markFinished)) Action.consumer) := by
          unfold main
          rw [run_append]
        rw [hrun]
        have hpc : (run design (main toInt env outcome design schedule)
            (Action.markFinished ::
              List.replicate (remaining (step design (main toInt env outcome design schedule)
                Action.markFinished)) Action.consumer)).pc = PC.returned := by
          rw [run_cons]
          exact hret
        refine ⟨hpc, ?_⟩
        rw [(hinv2.2.2.2.1 hpc).1, run_results, hres]
    · left
      refine ⟨hok, ?_, ?_⟩ <;> rw [heq]
  · intro more
    unfold main
    rw [run_append, run_results]
  · by_cases hpc : (main toInt env outcome design schedule).pc = PC.serialize
    · right
      rcases main_inv_or_early toInt env outcome design schedule with ⟨-, hinv⟩ | ⟨-, heq⟩
      · have hc : (main toInt env outcome design schedule).cout = [] :=
          (hinv.2.2.2.2 (by rw [hpc]; simp)).1
        exact serialize_step design _ hpc hc
      · rw [heq] at hpc
        simp at hpc
    · exact Or.inl hpc

/-- C10: in every state of every run of `main` the empty-buffer failure of
`getData` has not occurred and does not occur at the next statement; the main
thread arrives at the `getData` call only from the test of line 111 having
seen a positive pending count; whenever it is at the call the buffer is
non-empty; and the main thread changes the buffer only there. -/
theorem drain_never_empty (toInt : exit_codes → Int) (env : Option String)
    (outcome : ParseOutcome) (design : BridgeDesign) (schedule : List Action) :
    (main toInt env outcome design schedule).pc ≠ PC.crashed ∧
    (step design (main toInt env outcome design schedule) Action.consumer).pc ≠ PC.crashed ∧
    ((step design (main toInt env outcome design schedule) Action.consumer).pc = PC.fetch ↔
      (main toInt env outcome design schedule).pc = PC.bodyCheck ∧
      0 < getDataSize (main toInt env outcome design schedule).buffer) ∧
    ((main toInt env outcome design schedule).pc ≠ PC.fetch ∨
      0 < getDataSize (main toInt env outcome design schedule).buffer) ∧
    ((step design (main toInt env outcome design schedule) Action.consumer).buffer ≠
        (main toInt env outcome design schedule).buffer ↔
      (main toInt env outcome design schedule).pc = PC.fetch) := by
  rcases main_inv_or_early toInt env outcome design schedule with ⟨-, hinv⟩ | ⟨-, heq⟩
  · have hinv1 := inv_step design _ Action.consumer hinv
    refine ⟨hinv.1, hinv1.1, fetch_step_iff design _, ?_, buffer_consumer_iff design _ hinv⟩
    by_cases hpc : (main toInt env outcome design schedule).pc = PC.fetch
    · right
      have := hinv.2.1 hpc
      unfold getDataSize
      exact List.length_pos.mpr this
    · exact Or.inl hpc
  · rw [heq]
    simp [step, getDataSize]

end Emotions
